import Mathlib

/-!
Verification of the table-reconstruction and statement-parsing core of
`converters.py` (image OCR → grid, PDF statement → transaction list).

The Python functions are shallowly embedded as executable Lean definitions:
strings become `List Char`, the regular expressions become specialised
backtracking matchers with Python's preference order (greedy quantifiers try
longest first, lazy ones shortest first, optional groups try to match first),
`float` amounts are modelled exactly as integer cents, and Python exceptions
become an `Except` error type.  Character classes (`\d`, `\s`, `\w`,
`str.upper`, `str.isdigit`) are modelled on their ASCII behaviour.
-/

namespace Converters

/-! ## Character classes (ASCII models of Python's `\d`, `\s`, `\w`) -/

def isDigitC (c : Char) : Bool := c.isDigit

/-- Python `\s` / `str.strip()` whitespace, ASCII part. -/
def isSpacePy (c : Char) : Bool :=
  c == ' ' || c == '\t' || c == '\n' || c == '\x0d' || c == '\x0c' || c == '\x0b'

/-- Python `\w` (ASCII part): letters, digits, underscore. -/
def isWordC (c : Char) : Bool := c.isAlphanum || c == '_'

def digitComma (c : Char) : Bool := isDigitC c || c == ','

/-- Numeric value of a two-digit group. -/
def d2 (a b : Char) : Nat := (a.toNat - 48) * 10 + (b.toNat - 48)

/-! ## Generic list helpers -/

/-- First `some` result of `f` over `l`, in list order (models both
backtracking preference and Python's first-match loops). -/
def firstSome : List α → (α → Option β) → Option β
  | [], _ => none
  | a :: as, f =>
    match f a with
    | some b => some b
    | none => firstSome as f

/-- Index of the first element satisfying `p` (models Python loops that
`return` on the first hit). -/
def firstMatchIdx (p : α → Bool) : List α → Option Nat
  | [] => none
  | a :: as => if p a then some 0 else (firstMatchIdx p as).map (· + 1)

/-- `[s, s+1, ..., s+n-1]`. -/
def natRange : Nat → Nat → List Nat
  | _, 0 => []
  | s, n + 1 => s :: natRange (s + 1) n

/-- `[n, n-1, ..., 1]`: candidate lengths for a greedy `+` quantifier. -/
def descList : Nat → List Nat
  | 0 => []
  | n + 1 => (n + 1) :: descList n

/-- `[1, 2, ..., n]`: candidate lengths for a lazy `+?` quantifier. -/
def ascList (n : Nat) : List Nat := (natRange 0 n).map (· + 1)

/-- Length of the leading run of `p`-characters. -/
def runLen (p : Char → Bool) : List Char → Nat
  | [] => 0
  | c :: cs => if p c then runLen p cs + 1 else 0

def wsCount (cs : List Char) : Nat := runLen isSpacePy cs

/-- Python `str.strip()`: drop leading and trailing whitespace. -/
def pyStrip (cs : List Char) : List Char :=
  ((cs.dropWhile isSpacePy).reverse.dropWhile isSpacePy).reverse

/-- Python `text.split('\n')`. -/
def splitLines : List Char → List (List Char)
  | [] => [[]]
  | c :: cs =>
    if c == '\n' then [] :: splitLines cs
    else
      match splitLines cs with
      | [] => [[c]]
      | l :: ls => (c :: l) :: ls

/-! ## The transaction-line regex of `_convert_pdf`

```
txn_re = re.compile(
    r'^(\d{2}/\d{2})\s+'           # Trans. date
    r'(?:(\d{2}/\d{2})\s+)?'       # Post date (optional)
    r'(.+?)\s+'                     # Description
    r'(-?\$[\d,]+\.\d{2})\b'        # Amount
)
```
used as `txn_re.match(line.strip())`. -/

/-- Match `\d{2}/\d{2}` at the front; returns the matched text, its numeric
month/day values, and the rest. -/
def matchMMDD : List Char → Option (List Char × Nat × Nat × List Char)
  | a :: b :: s :: c :: d :: rest =>
    if isDigitC a && isDigitC b && (s == '/') && isDigitC c && isDigitC d then
      some ([a, b, s, c, d], d2 a b, d2 c d, rest)
    else none
  | _ => none

/-- Backtracking `\s+`: try the longest whitespace prefix first, then shorter,
each time running the continuation on the remainder. -/
def tryWs (cs : List Char) (k : List Char → Option β) : Option β :=
  firstSome (descList (wsCount cs)) (fun n => k (cs.drop n))

/-- `\b` right after the amount's final digit: end of input or a non-word
character. -/
def wordBoundaryOk : List Char → Bool
  | [] => true
  | c :: _ => !(isWordC c)

/-- Match `\$[\d,]+\.\d{2}\b` at the front (greedy `[\d,]+` with
backtracking); returns the matched text and the rest. -/
def matchAmountCore (cs : List Char) : Option (List Char × List Char) :=
  match cs with
  | '$' :: rest =>
    firstSome (descList (runLen digitComma rest)) (fun k =>
      match rest.drop k with
      | '.' :: e1 :: e2 :: rest2 =>
        if isDigitC e1 && isDigitC e2 && wordBoundaryOk rest2 then
          some ('$' :: (rest.take k ++ '.' :: e1 :: e2 :: []), rest2)
        else none
      | _ => none)
  | _ => none

/-- Match `-?\$[\d,]+\.\d{2}\b` at the front.  (`-?` is deterministic here:
if the head is `-` it must be consumed, since `\$` cannot match `-`.) -/
def matchAmount (cs : List Char) : Option (List Char × List Char) :=
  match cs with
  | '-' :: rest => (matchAmountCore rest).map (fun p => ('-' :: p.1, p.2))
  | _ => matchAmountCore cs

/-- The four captured groups of `txn_re` (month/day are the numeric values of
group 1, computed by `int()` in the Python code). -/
structure TxnMatch where
  g1 : List Char
  month : Nat
  day : Nat
  g2 : Option (List Char)
  desc : List Char
  amount : List Char
deriving Repr, DecidableEq

/-- Match `(.+?)\s+(-?\$[\d,]+\.\d{2})\b`: the lazy description tries the
shortest length first. -/
def matchTail (g1 : List Char) (mo dy : Nat) (g2 : Option (List Char))
    (cs : List Char) : Option TxnMatch :=
  firstSome (ascList cs.length) (fun l =>
    if (cs.take l).all (fun c => !(c == '\n')) then
      tryWs (cs.drop l) (fun r =>
        match matchAmount r with
        | some p => some ⟨g1, mo, dy, g2, cs.take l, p.1⟩
        | none => none)
    else none)

/-- `txn_re.match`: anchored at the start, free at the end.  The optional
post-date group is greedy (tried first); all earlier choice points backtrack
before it is given up. -/
def txnMatch (cs : List Char) : Option TxnMatch :=
  match matchMMDD cs with
  | none => none
  | some (g1, mo, dy, r1) =>
    tryWs r1 (fun r2 =>
      match
        (match matchMMDD r2 with
         | some (g2, _, _, r3) =>
           tryWs r3 (fun r4 => matchTail g1 mo dy (some g2) r4)
         | none => none)
      with
      | some t => some t
      | none => matchTail g1 mo dy none r2)

/-! ## Billing-period and filename year extraction -/

/-- Match a literal string at the front, returning the rest. -/
def dropLit : List Char → List Char → Option (List Char)
  | [], cs => some cs
  | _ :: _, [] => none
  | l :: ls, c :: cs => if c == l then dropLit ls cs else none

/-- Attempt `Billing Period:\s*(\d{2}/\d{2}/(\d{2}))-(\d{2}/\d{2}/(\d{2}))`
anchored at the current position; returns the two `YY` group values.
(`\s*` is deterministic here: it is followed by `\d`, disjoint from `\s`.) -/
def billingAt (cs : List Char) : Option (Nat × Nat) :=
  match dropLit "Billing Period:".toList cs with
  | none => none
  | some r0 =>
    match r0.drop (wsCount r0) with
    | a :: b :: s1 :: c :: d :: s2 :: y1 :: y2 :: dash :: e :: f :: s3 :: g :: h :: s4 :: y3 :: y4 :: _ =>
      if isDigitC a && isDigitC b && (s1 == '/') && isDigitC c && isDigitC d &&
         (s2 == '/') && isDigitC y1 && isDigitC y2 && (dash == '-') &&
         isDigitC e && isDigitC f && (s3 == '/') && isDigitC g && isDigitC h &&
         (s4 == '/') && isDigitC y3 && isDigitC y4 then
        some (d2 y1 y2, d2 y3 y4)
      else none
    | _ => none

/-- `billing_re.search`: leftmost occurrence. -/
def billingSearch : List Char → Option (Nat × Nat)
  | [] => none
  | c :: cs =>
    match billingAt (c :: cs) with
    | some r => some r
    | none => billingSearch cs

/-- The billing period taken from the first page (in order) whose text
contains the marker, as in `_convert_pdf`'s page loop. -/
def firstBilling (texts : List String) : Option (Nat × Nat) :=
  firstSome texts (fun t => billingSearch t.toList)

/-- `re.search(r'(20\d{2})', basename)`: leftmost four-digit `20xx` year. -/
def findYear20 : List Char → Option Nat
  | [] => none
  | c :: cs =>
    match c, cs with
    | '2', '0' :: a :: b :: _ =>
      if isDigitC a && isDigitC b then some (2000 + d2 a b) else findYear20 cs
    | _, _ => findYear20 cs

/-- The `(start_year, end_year)` pair of `_convert_pdf`: billing marker first,
then a `20xx` year in the file name, then the current year. -/
def pdfYears (texts : List String) (basename : String) (currentYear : Nat) :
    Nat × Nat :=
  match firstBilling texts with
  | some (y1, y2) => (2000 + y1, 2000 + y2)
  | none =>
    match findYear20 basename.toList with
    | some y => (y, y)
    | none => (currentYear, currentYear)

/-! ## Rule classification (`_apply_rules`) -/

structure Rule where
  keywords : List String
  type : String
  hl_exp_category : String
  exp_category : String
deriving Repr, DecidableEq

/-- ASCII model of Python `str.upper()`. -/
def upperStr (s : String) : String := String.mk (s.toList.map Char.toUpper)

/-- `needle in hay` (contiguous substring test). -/
def isPrefixL : List Char → List Char → Bool
  | [], _ => true
  | _ :: _, [] => false
  | a :: as, b :: bs => (a == b) && isPrefixL as bs

def containsSub (needle : List Char) : List Char → Bool
  | [] => isPrefixL needle []
  | c :: cs => isPrefixL needle (c :: cs) || containsSub needle cs

/-- `any(keyword.upper() in desc_upper for keyword in rule["keywords"])`. -/
def matchesRule (description : String) (r : Rule) : Bool :=
  r.keywords.any (fun kw =>
    containsSub (upperStr kw).toList (upperStr description).toList)

/-- `_apply_rules`: triple of the first rule with a matching keyword, else
three empty strings. -/
def applyRules (description : String) : List Rule → String × String × String
  | [] => ("", "", "")
  | r :: rs =>
    if matchesRule description r then (r.type, r.hl_exp_category, r.exp_category)
    else applyRules description rs

/-- Modelled from the spec's words in 4.6 (for comparison with `applyRules`):
the classification is that of the first rule, in list order, for which some
keyword occurs case-insensitively as a substring of the description. -/
def classifySpec (description : String) (rules : List Rule) :
    String × String × String :=
  match rules.find? (matchesRule description) with
  | some r => (r.type, r.hl_exp_category, r.exp_category)
  | none => ("", "", "")

/-! ## Transaction assembly (`_convert_pdf` main loop) -/

/-- Python exceptions that can escape the conversion. -/
inductive PyErr where
  | conversionError (msg : String)
  | indexError
deriving Repr, DecidableEq

/-- One output record (the appended row of `_convert_pdf`, plus the parsed
numeric `month` it was built from; the `float` amount is modelled exactly as
integer cents). -/
structure Txn where
  postDate : String
  date : String
  monthName : String
  day : Nat
  year : Nat
  description : String
  month : Nat
  amountCents : Int
  type : String
  hl_exp_category : String
  exp_category : String
deriving Repr, DecidableEq

def MONTH_NAMES : List String :=
  ["", "January", "February", "March", "April", "May", "June",
   "July", "August", "September", "October", "November", "December"]

/-- `if start_year != end_year and month >= 10: start_year else end_year`. -/
def resolveYear (startYear endYear month : Nat) : Nat :=
  if startYear ≠ endYear ∧ 10 ≤ month then startYear else endYear

/-- `f"{n:02d}"` for `n ≤ 99`. -/
def fmt2 (n : Nat) : String := if n < 10 then "0" ++ toString n else toString n

/-- The digits of `l`, read as a decimal number. -/
def digitsVal (l : List Char) : Nat :=
  (l.filter isDigitC).foldl (fun acc c => acc * 10 + (c.toNat - 48)) 0

/-- `float(amount_str.replace("$", "").replace(",", ""))`, in cents.  The
matched amount always has exactly two decimals, so the value in cents is the
digit string read as an integer, negated after a leading `-`. -/
def parseCents (a : List Char) : Int :=
  match a with
  | '-' :: rest => -(digitsVal rest : Int)
  | _ => (digitsVal a : Int)

def noTextMsg : String := "PDF contains no extractable text."

def noTxnMsg : String :=
  "No transaction rows found with the expected format (Trans. Date, Post Date, Description, Amount)."

/-- The body of `_convert_pdf`'s per-line loop: `None` when the line is
skipped (`continue`), a record when appended, an error when the Python code
would raise.  `MONTH_NAMES[month]` is a plain list indexing and raises
`IndexError` when `month` is out of range. -/
def processLine (startYear endYear : Nat) (rules : List Rule)
    (line : List Char) : Except PyErr (Option Txn) :=
  match txnMatch (pyStrip line) with
  | none => .ok none
  | some m =>
    if m.amount.head? == some '-' then .ok none
    else
      let year := resolveYear startYear endYear m.month
      let dateStr := fmt2 m.month ++ "/" ++ fmt2 m.day ++ "/" ++ toString year
      match MONTH_NAMES.get? m.month with
      | none => .error .indexError
      | some monthName =>
        let postDate : String :=
          match m.g2 with
          | some g => String.mk g
          | none => ""
        let description := String.mk (pyStrip m.desc)
        let cls := applyRules description rules
        .ok (some ⟨postDate, dateStr, monthName, m.day, year, description,
                   m.month, parseCents m.amount, cls.1, cls.2.1, cls.2.2⟩)

/-- Run the per-line loop over all lines, collecting appended records in
order; the first raise aborts the whole conversion. -/
def collectTxns (startYear endYear : Nat) (rules : List Rule) :
    List (List Char) → Except PyErr (List Txn)
  | [] => .ok []
  | l :: ls =>
    match processLine startYear endYear rules l with
    | .error e => .error e
    | .ok none => collectTxns startYear endYear rules ls
    | .ok (some t) =>
      match collectTxns startYear endYear rules ls with
      | .error e => .error e
      | .ok ts => .ok (t :: ts)

/-- `_convert_pdf` on the extracted page texts (empty pages are skipped by
`if not text: continue`); `basename` is the input file's base name and
`currentYear` is `datetime.now().year`. -/
def convertPdf (pages : List String) (basename : String) (currentYear : Nat)
    (rules : List Rule) : Except PyErr (List Txn) :=
  let texts := pages.filter (fun t => !(t == ""))
  if texts.isEmpty then .error (.conversionError noTextMsg)
  else
    let ys := pdfYears texts basename currentYear
    match collectTxns ys.1 ys.2 rules
        ((texts.map (fun t => splitLines t.toList)).flatten) with
    | .error e => .error e
    | .ok [] => .error (.conversionError noTxnMsg)
    | .ok ts => .ok ts

/-! ## OCR row assembly (`_convert_image`, lines 158–175) -/

structure Word where
  text : String
  left : Nat
  top : Nat
  width : Nat
  right : Nat
deriving Repr, DecidableEq

/-- A `rows_by_y` entry: `[avg_y, [words]]`. -/
structure RowCluster where
  anchor : Nat
  words : List Word
deriving Repr, DecidableEq

/-- `abs(a - b)` on Python ints (tops and running averages are nonnegative). -/
def absDiff (a b : Nat) : Nat := ((a : Int) - (b : Int)).natAbs

/-- Stable insertion into an already sorted list: the new element goes after
every existing element that compares `≤` to it. -/
def stableInsert (le : α → α → Bool) (a : α) : List α → List α
  | [] => [a]
  | b :: bs => if le a b then a :: b :: bs else b :: stableInsert le a bs

/-- A stable sort with respect to the total preorder `le` (Python's `sort`
with a key function is stable, which determines its output uniquely). -/
def stableSortBy (le : α → α → Bool) (l : List α) : List α :=
  l.foldr (stableInsert le) []

/-- `key=lambda w: (w["top"], w["left"])` as a `≤` test. -/
def leTopLeft (a b : Word) : Bool :=
  a.top < b.top || (a.top == b.top && a.left ≤ b.left)

def leAnchor (a b : RowCluster) : Bool := a.anchor ≤ b.anchor

def leLeft (a b : Word) : Bool := a.left ≤ b.left

/-- The body of the placement loop: scan rows in creation order, append the
word to the first row within tolerance 15 and recompute its running average
(`sum // len`), else start a new row at the end. -/
def addToRows (w : Word) : List RowCluster → List RowCluster
  | [] => [⟨w.top, [w]⟩]
  | r :: rs =>
    if absDiff w.top r.anchor ≤ 15 then
      let ws := r.words ++ [w]
      ⟨(ws.map (fun x => x.top)).sum / ws.length, ws⟩ :: rs
    else r :: addToRows w rs

/-- The full row-assembly phase of `_convert_image`: sort words by
`(top, left)`, place each in order, then sort rows by final anchor and each
row's words by `left`. -/
def assembleRows (ws : List Word) : List RowCluster :=
  let sorted := stableSortBy leTopLeft ws
  let clustered := sorted.foldl (fun acc w => addToRows w acc) []
  (stableSortBy leAnchor clustered).map
    (fun r => ⟨r.anchor, stableSortBy leLeft r.words⟩)

/-! Modelled from the spec's words in 4.1 (for comparison with
`assembleRows`): the same greedy clustering phrased with an explicit
first-qualifying-row search and in-place update. -/

def replaceAt (i : Nat) (f : α → α) : List α → List α
  | [] => []
  | a :: as =>
    match i with
    | 0 => f a :: as
    | i + 1 => a :: replaceAt i f as

/-- Spec 4.1: put the word into the first row whose anchor is within 15 units
of the word's top and recompute that row's anchor as the integer-truncated
mean of its members' tops; else open a new row anchored at the word's top. -/
def specPlace (w : Word) (rows : List RowCluster) : List RowCluster :=
  match firstMatchIdx (fun r => absDiff w.top r.anchor ≤ 15) rows with
  | some i =>
    replaceAt i (fun r =>
      let ws := r.words ++ [w]
      ⟨(ws.map (fun x => x.top)).sum / ws.length, ws⟩) rows
  | none => rows ++ [⟨w.top, [w]⟩]

def specPlaceAll : List Word → List RowCluster → List RowCluster
  | [], acc => acc
  | w :: ws, acc => specPlaceAll ws (specPlace w acc)

/-- Spec 4.1, whole phase: sort by `(top, left)`, place each word in order,
order rows by final anchor and each row's words by `left`. -/
def specRowAssemble (ws : List Word) : List RowCluster :=
  (stableSortBy leAnchor (specPlaceAll (stableSortBy leTopLeft ws) [])).map
    (fun r => ⟨r.anchor, stableSortBy leLeft r.words⟩)

/-! ## Column bounds and assignment (`_convert_image`, lines 186–205) -/

def defaultWord : Word := ⟨"", 0, 0, 0, 0⟩

def wordAt (hw : List Word) (i : Nat) : Word := hw.getD i defaultWord

/-- `(left_bound, right_bound)` for header word `ci`, exactly as computed in
the `for ci, hw in enumerate(header_words)` loop. -/
def boundAt (hw : List Word) (ci : Nat) : Nat × Nat :=
  let lb := if ci == 0 then 0
            else ((wordAt hw (ci - 1)).right + (wordAt hw ci).left) / 2
  let rb := if ci == hw.length - 1 then 999999
            else ((wordAt hw ci).right + (wordAt hw (ci + 1)).left) / 2
  (lb, rb)

def colBounds (hw : List Word) : List (Nat × Nat) :=
  (natRange 0 hw.length).map (boundAt hw)

/-- `_get_col_index`: first interval `[cl, cr)` containing `x`, else the last
column. -/
def getColIndex (bounds : List (Nat × Nat)) (numCols : Nat) (x : Nat) : Nat :=
  match firstMatchIdx (fun b => b.1 ≤ x && x < b.2) bounds with
  | some i => i
  | none => numCols - 1

/-! ## Header detection (`_convert_image`, lines 219–225) -/

/-- `cell.replace(".", "").replace(",", "").replace("/", "")`. -/
def stripPunct (s : String) : String :=
  String.mk (s.toList.filter (fun c => !(c == '.' || c == ',' || c == '/')))

/-- Python `str.isdigit` (ASCII): nonempty and all digits. -/
def isdigitPy (s : String) : Bool :=
  !s.toList.isEmpty && s.toList.all isDigitC

/-- `all(not cell.replace(...).isdigit() for cell in first_row if cell)`. -/
def isHeaderRow (row : List String) : Bool :=
  row.all (fun cell => if cell == "" then true else !(isdigitPy (stripPunct cell)))

structure Table where
  headers : Option (List String)
  rows : List (List String)
deriving Repr, DecidableEq

/-- The header decision: promote the first row iff it looks like a header. -/
def buildTable : List (List String) → Table
  | [] => ⟨none, []⟩
  | first :: rest =>
    if isHeaderRow first then ⟨some first, rest⟩ else ⟨none, first :: rest⟩

/-! ## Shape predicates for the matched groups, and the spec's end-anchored
pattern -/

/-- `\d{2}/\d{2}` as a whole-string test. -/
def isMMDDb : List Char → Bool
  | [a, b, s, c, d] =>
    isDigitC a && isDigitC b && (s == '/') && isDigitC c && isDigitC d
  | _ => false

/-- `\d{2}` as a whole-string test. -/
def isDot2 : List Char → Bool
  | [e1, e2] => isDigitC e1 && isDigitC e2
  | _ => false

/-- After the leading `\$` and first `[\d,]` character: the remainder of
`[\d,]+\.\d{2}` as a whole-string test. -/
def amtCont : List Char → Bool
  | [] => false
  | c :: rest => if c == '.' then isDot2 rest else digitComma c && amtCont rest

/-- `\$[\d,]+\.\d{2}` as a whole-string test. -/
def isAmountCoreB : List Char → Bool
  | '$' :: c :: rest => digitComma c && amtCont rest
  | _ => false

/-- `-?\$[\d,]+\.\d{2}` as a whole-string test. -/
def isAmountB : List Char → Bool
  | '-' :: rest => isAmountCoreB rest
  | a => isAmountCoreB a

/-- The optional post-date chunk of a decomposition: absent, or the captured
`MM/DD` followed by the whitespace that separated it. -/
def optOk : Option (List Char) → List Char → Prop
  | none, opt => opt = []
  | some g, opt =>
    ∃ w3, opt = g ++ w3 ∧ isMMDDb g = true ∧ w3 ≠ [] ∧ w3.all isSpacePy = true

/-- What a successful `txn_re.match` guarantees about the line: it decomposes
into the four groups separated by nonempty whitespace, with the amount
followed by a word boundary — and possibly by further text `rest`. -/
def matchDecomp (l : List Char) (m : TxnMatch) : Prop :=
  ∃ w1 opt w2 rest,
    l = m.g1 ++ w1 ++ opt ++ m.desc ++ w2 ++ m.amount ++ rest ∧
    isMMDDb m.g1 = true ∧
    w1 ≠ [] ∧ w1.all isSpacePy = true ∧
    optOk m.g2 opt ∧
    m.desc ≠ [] ∧ m.desc.all (fun c => !(c == '\n')) = true ∧
    w2 ≠ [] ∧ w2.all isSpacePy = true ∧
    isAmountB m.amount = true ∧
    (rest = [] ∨ ∃ c t, rest = c :: t ∧ isWordC c = false)

/-! Modelled from the spec's words in 4.4 (for comparison with `txnMatch`):
the conceptual pattern `^<MM/DD> (<MM/DD> )?<description> <$amount>$` is
anchored at BOTH ends — nothing may follow the amount. -/

/-- Does some suffix split `desc ++ ws ++ amount` consume `cs` entirely? -/
def specDescAmountEnd (cs : List Char) : Bool :=
  (ascList cs.length).any (fun l =>
    ((cs.take l).all (fun c => !(c == '\n'))) &&
    (let r := cs.drop l
     (descList (wsCount r)).any (fun n => isAmountB (r.drop n))))

/-- Spec 4.4: the entire (trimmed) line matches
`^<MM/DD> (<MM/DD> )?<description, non-greedy> <$amount>$`. -/
def specAnchoredTxnPattern (cs : List Char) : Bool :=
  match matchMMDD cs with
  | none => false
  | some (_, _, _, r1) =>
    (descList (wsCount r1)).any (fun n1 =>
      let r2 := r1.drop n1
      (match matchMMDD r2 with
       | some (_, _, _, r3) =>
         (descList (wsCount r3)).any (fun n2 => specDescAmountEnd (r3.drop n2))
       | none => false)
      || specDescAmountEnd r2)

/-! ## Lemmas about the generic helpers -/

theorem firstSome_eq_some {l : List α} {f : α → Option β} {b : β}
    (h : firstSome l f = some b) : ∃ a ∈ l, f a = some b := by
  induction l with
  | nil => simp [firstSome] at h
  | cons a as ih =>
    rw [firstSome] at h
    cases hfa : f a with
    | some b' =>
      rw [hfa] at h
      exact ⟨a, List.mem_cons_self a as, hfa.trans h⟩
    | none =>
      rw [hfa] at h
      obtain ⟨x, hx, hfx⟩ := ih h
      exact ⟨x, List.mem_cons_of_mem a hx, hfx⟩

theorem mem_descList {n m : Nat} (h : n ∈ descList m) : 1 ≤ n ∧ n ≤ m := by
  induction m with
  | zero => simp [descList] at h
  | succ k ih =>
    rw [descList] at h
    rcases List.mem_cons.mp h with h | h
    · omega
    · have := ih h; omega

theorem mem_natRange {s n x : Nat} (h : x ∈ natRange s n) :
    s ≤ x ∧ x < s + n := by
  induction n generalizing s with
  | zero => simp [natRange] at h
  | succ k ih =>
    rw [natRange] at h
    rcases List.mem_cons.mp h with h | h
    · omega
    · have := ih h; omega

theorem mem_ascList {n m : Nat} (h : n ∈ ascList m) : 1 ≤ n ∧ n ≤ m := by
  rw [ascList] at h
  obtain ⟨x, hx, rfl⟩ := List.mem_map.mp h
  have := mem_natRange hx
  omega

theorem runLen_le_length (p : Char → Bool) (cs : List Char) :
    runLen p cs ≤ cs.length := by
  induction cs with
  | nil => simp [runLen]
  | cons c cs ih =>
    rw [runLen]
    split
    · simp only [List.length_cons]; omega
    · simp

theorem take_all_of_le_runLen (p : Char → Bool) {cs : List Char} {n : Nat}
    (h : n ≤ runLen p cs) : (cs.take n).all p = true := by
  induction cs generalizing n with
  | nil => simp
  | cons c cs ih =>
    cases n with
    | zero => simp
    | succ k =>
      rw [runLen] at h
      by_cases hc : p c
      · rw [if_pos hc] at h
        simp only [List.take_succ_cons, List.all_cons, hc, Bool.true_and]
        exact ih (by omega)
      · rw [if_neg hc] at h; omega

theorem take_ne_nil_of {l : List α} {n : Nat} (h1 : 1 ≤ n)
    (h2 : n ≤ l.length) : l.take n ≠ [] := by
  cases l with
  | nil => simp at h2; omega
  | cons a as =>
    cases n with
    | zero => omega
    | succ k => simp

/-- What a successful `tryWs` guarantees: the input splits as a nonempty
all-whitespace chunk followed by a remainder accepted by the continuation. -/
theorem tryWs_sound {cs : List Char} {k : List Char → Option β} {b : β}
    (h : tryWs cs k = some b) :
    ∃ w r, cs = w ++ r ∧ w ≠ [] ∧ w.all isSpacePy = true ∧ k r = some b := by
  obtain ⟨n, hn, hk⟩ := firstSome_eq_some h
  obtain ⟨h1, h2⟩ := mem_descList hn
  have hlen : n ≤ cs.length :=
    le_trans h2 (runLen_le_length isSpacePy cs)
  exact ⟨cs.take n, cs.drop n, (List.take_append_drop n cs).symm,
    take_ne_nil_of h1 hlen, take_all_of_le_runLen isSpacePy h2, hk⟩

theorem matchMMDD_sound {cs g : List Char} {mo dy : Nat} {rest : List Char}
    (h : matchMMDD cs = some (g, mo, dy, rest)) :
    cs = g ++ rest ∧ isMMDDb g = true := by
  match cs with
  | [] => simp [matchMMDD] at h
  | [a] => simp [matchMMDD] at h
  | [a, b] => simp [matchMMDD] at h
  | [a, b, s] => simp [matchMMDD] at h
  | [a, b, s, c] => simp [matchMMDD] at h
  | a :: b :: s :: c :: d :: r =>
    rw [matchMMDD] at h
    split at h
    · next hcond =>
      simp only [Option.some.injEq, Prod.mk.injEq] at h
      obtain ⟨rfl, -, -, rfl⟩ := h
      exact ⟨rfl, by simpa [isMMDDb] using hcond⟩
    · simp at h

theorem digitComma_ne_dot {c : Char} (h : digitComma c = true) :
    (c == '.') = false := by
  rcases hbe : c == '.' with _ | _
  · rfl
  · have : c = '.' := by exact beq_iff_eq.mp hbe
    subst this
    simp [digitComma, isDigitC, Char.isDigit] at h

theorem amtCont_append {body : List Char} {e1 e2 : Char}
    (hall : body.all digitComma = true)
    (h1 : isDigitC e1 = true) (h2 : isDigitC e2 = true) :
    amtCont (body ++ '.' :: e1 :: e2 :: []) = true := by
  induction body with
  | nil => simp [amtCont, isDot2, h1, h2]
  | cons c cs ih =>
    simp only [List.all_cons, Bool.and_eq_true] at hall
    rw [List.cons_append, amtCont, digitComma_ne_dot hall.1]
    simp [hall.1, ih hall.2]

theorem matchAmountCore_sound {cs a r : List Char}
    (h : matchAmountCore cs = some (a, r)) :
    cs = a ++ r ∧ (∃ tail, a = '$' :: tail) ∧ isAmountCoreB a = true ∧
      (r = [] ∨ ∃ c t, r = c :: t ∧ isWordC c = false) := by
  unfold matchAmountCore at h
  split at h
  · next rest =>
    obtain ⟨k, hk, hfk⟩ := firstSome_eq_some h
    obtain ⟨hk1, hk2⟩ := mem_descList hk
    split at hfk
    · next e1 e2 rest2 hdrop =>
      split at hfk
      · next hcond =>
        simp only [Option.some.injEq, Prod.mk.injEq] at hfk
        obtain ⟨ha, hr⟩ := hfk
        subst ha
        subst hr
        simp only [Bool.and_eq_true] at hcond
        obtain ⟨⟨h1, h2⟩, hb⟩ := hcond
        have hsplit : rest = rest.take k ++ ('.' :: e1 :: e2 :: rest2) := by
          rw [← hdrop, List.take_append_drop]
        cases hbody : rest.take k with
        | nil =>
          exact absurd hbody (take_ne_nil_of hk1
            (le_trans hk2 (runLen_le_length digitComma rest)))
        | cons c0 body =>
          have hall : (rest.take k).all digitComma = true :=
            take_all_of_le_runLen digitComma hk2
          rw [hbody, List.all_cons, Bool.and_eq_true] at hall
          constructor
          · rw [hbody] at hsplit
            rw [hsplit]
            simp [List.append_assoc]
          refine ⟨⟨_, rfl⟩, ?_, ?_⟩
          · show (digitComma c0 && amtCont (body ++ '.' :: e1 :: e2 :: [])) = true
            rw [hall.1, amtCont_append hall.2 h1 h2]
            rfl
          · cases rest2 with
            | nil => exact Or.inl rfl
            | cons c t =>
              refine Or.inr ⟨c, t, rfl, ?_⟩
              simpa [wordBoundaryOk] using hb
      · exact absurd hfk (by simp)
    · exact absurd hfk (by simp)
  · exact absurd h (by simp)

theorem matchAmount_sound {cs a r : List Char}
    (h : matchAmount cs = some (a, r)) :
    cs = a ++ r ∧ isAmountB a = true ∧
      (r = [] ∨ ∃ c t, r = c :: t ∧ isWordC c = false) := by
  unfold matchAmount at h
  split at h
  · next rest =>
    cases hmc : matchAmountCore rest with
    | none => rw [hmc] at h; simp at h
    | some p =>
      obtain ⟨a', r'⟩ := p
      rw [hmc] at h
      simp only [Option.map_some', Option.some.injEq, Prod.mk.injEq] at h
      obtain ⟨rfl, rfl⟩ := h
      obtain ⟨heq, ⟨tail, htail⟩, hcore, hbound⟩ := matchAmountCore_sound hmc
      subst htail
      exact ⟨by rw [heq]; rfl, hcore, hbound⟩
  · next hne =>
    obtain ⟨heq, ⟨tail, htail⟩, hcore, hbound⟩ := matchAmountCore_sound h
    subst htail
    exact ⟨heq, hcore, hbound⟩

theorem matchTail_sound {g1 : List Char} {mo dy : Nat}
    {g2 : Option (List Char)} {cs : List Char} {m : TxnMatch}
    (h : matchTail g1 mo dy g2 cs = some m) :
    m.g1 = g1 ∧ m.month = mo ∧ m.day = dy ∧ m.g2 = g2 ∧
    ∃ w2 rest, cs = m.desc ++ w2 ++ m.amount ++ rest ∧
      m.desc ≠ [] ∧ m.desc.all (fun c => !(c == '\n')) = true ∧
      w2 ≠ [] ∧ w2.all isSpacePy = true ∧
      isAmountB m.amount = true ∧
      (rest = [] ∨ ∃ c t, rest = c :: t ∧ isWordC c = false) := by
  obtain ⟨l, hl, hfl⟩ := firstSome_eq_some h
  obtain ⟨hl1, hl2⟩ := mem_ascList hl
  split at hfl
  · next hnl =>
    obtain ⟨w2, r, hsplit, hw2ne, hw2sp, hk⟩ := tryWs_sound hfl
    cases hma : matchAmount r with
    | none => rw [hma] at hk; simp at hk
    | some p =>
      obtain ⟨am, rest⟩ := p
      rw [hma] at hk
      simp only [Option.some.injEq] at hk
      subst hk
      obtain ⟨hreq, hamB, hbound⟩ := matchAmount_sound hma
      refine ⟨rfl, rfl, rfl, rfl, w2, rest, ?_,
        take_ne_nil_of hl1 hl2, hnl, hw2ne, hw2sp, hamB, hbound⟩
      have hcs : cs = cs.take l ++ (w2 ++ (am ++ rest)) := by
        rw [← hreq, ← hsplit, List.take_append_drop]
      simpa [List.append_assoc] using hcs
  · exact absurd hfl (by simp)

/-- Soundness of the embedded `txn_re.match`: any successful match yields a
decomposition of the line into the pattern's pieces (with possible trailing
text after the amount). -/
theorem txnMatch_sound {l : List Char} {m : TxnMatch}
    (h : txnMatch l = some m) : matchDecomp l m := by
  unfold txnMatch at h
  cases hmm : matchMMDD l with
  | none => rw [hmm] at h; simp at h
  | some q =>
    obtain ⟨g1, mo, dy, r1⟩ := q
    rw [hmm] at h
    obtain ⟨hleq, hg1⟩ := matchMMDD_sound hmm
    obtain ⟨w1, r2, hr1, hw1ne, hw1sp, hk⟩ := tryWs_sound h
    cases hmm2 : matchMMDD r2 with
    | none =>
      rw [hmm2] at hk
      simp only at hk
      obtain ⟨hmg1, hmmo, hmdy, hmg2, w2, rest, hr2, hdne, hdnl, hw2ne,
        hw2sp, hamB, hbound⟩ := matchTail_sound hk
      refine ⟨w1, [], w2, rest, ?_, hmg1 ▸ hg1, hw1ne, hw1sp,
        hmg2 ▸ rfl, hdne, hdnl, hw2ne, hw2sp, hamB, hbound⟩
      rw [hleq, hr1, hr2, hmg1]
      simp [List.append_assoc]
    | some q2 =>
      obtain ⟨g2, mo2, dy2, r3⟩ := q2
      rw [hmm2] at hk
      simp only at hk
      obtain ⟨hr2eq, hg2b⟩ := matchMMDD_sound hmm2
      cases htw : tryWs r3 (fun r4 => matchTail g1 mo dy (some g2) r4) with
      | some t =>
        rw [htw] at hk
        simp only [Option.some.injEq] at hk
        subst hk
        obtain ⟨w3, r4, hr3, hw3ne, hw3sp, hk4⟩ := tryWs_sound htw
        obtain ⟨hmg1, hmmo, hmdy, hmg2, w2, rest, hr4, hdne, hdnl, hw2ne,
          hw2sp, hamB, hbound⟩ := matchTail_sound hk4
        refine ⟨w1, g2 ++ w3, w2, rest, ?_, hmg1 ▸ hg1, hw1ne, hw1sp,
          ?_, hdne, hdnl, hw2ne, hw2sp, hamB, hbound⟩
        · rw [hleq, hr1, hr2eq, hr3, hr4, hmg1]
          simp [List.append_assoc]
        · rw [hmg2]
          exact ⟨w3, rfl, hg2b, hw3ne, hw3sp⟩
      | none =>
        rw [htw] at hk
        obtain ⟨hmg1, hmmo, hmdy, hmg2, w2, rest, hr2, hdne, hdnl, hw2ne,
          hw2sp, hamB, hbound⟩ := matchTail_sound hk
        refine ⟨w1, [], w2, rest, ?_, hmg1 ▸ hg1, hw1ne, hw1sp,
          hmg2 ▸ rfl, hdne, hdnl, hw2ne, hw2sp, hamB, hbound⟩
        rw [hleq, hr1, hr2, hmg1]
        simp [List.append_assoc]

/-! ## Lemmas about the transaction pipeline -/

/-- Every record appended by the per-line loop has its year resolved by the
`start_year != end_year and month >= 10` rule on its own parsed month. -/
theorem processLine_year {sY eY : Nat} {rules : List Rule} {l : List Char}
    {t : Txn} (h : processLine sY eY rules l = .ok (some t)) :
    t.year = resolveYear sY eY t.month := by
  cases hm : txnMatch (pyStrip l) with
  | none => simp [processLine, hm] at h
  | some m =>
    simp only [processLine, hm] at h
    split at h
    · simp at h
    · split at h
      · simp at h
      · simp only [Except.ok.injEq, Option.some.injEq] at h
        subst h
        rfl

/-- Every record appended by the per-line loop has a nonnegative amount (the
`-$` sign filter ran before it was built). -/
theorem processLine_amount {sY eY : Nat} {rules : List Rule} {l : List Char}
    {t : Txn} (h : processLine sY eY rules l = .ok (some t)) :
    0 ≤ t.amountCents := by
  cases hm : txnMatch (pyStrip l) with
  | none => simp [processLine, hm] at h
  | some m =>
    simp only [processLine, hm] at h
    split at h
    · simp at h
    · next hneg =>
      split at h
      · simp at h
      · simp only [Except.ok.injEq, Option.some.injEq] at h
        subst h
        show 0 ≤ parseCents m.amount
        rw [parseCents.eq_def]
        split
        · next rest heq =>
          rw [heq] at hneg
          simp at hneg
        · exact Int.natCast_nonneg _

/-- Every record produced by the line loop comes from a successfully matched
line processed by `processLine`. -/
theorem collectTxns_mem {sY eY : Nat} {rules : List Rule}
    {ls : List (List Char)} {ts : List Txn}
    (h : collectTxns sY eY rules ls = .ok ts) {t : Txn} (ht : t ∈ ts) :
    ∃ l ∈ ls, processLine sY eY rules l = .ok (some t) := by
  induction ls generalizing ts with
  | nil =>
    rw [collectTxns] at h
    simp only [Except.ok.injEq] at h
    subst h
    simp at ht
  | cons l ls ih =>
    rw [collectTxns] at h
    split at h
    · simp at h
    · next hok =>
      obtain ⟨l', hl', hp⟩ := ih h ht
      exact ⟨l', List.mem_cons_of_mem l hl', hp⟩
    · next t' hok =>
      split at h
      · simp at h
      · next ts' hts' =>
        simp only [Except.ok.injEq] at h
        subst h
        rcases List.mem_cons.mp ht with rfl | hmem
        · exact ⟨l, List.mem_cons_self l ls, hok⟩
        · obtain ⟨l', hl', hp⟩ := ih hts' hmem
          exact ⟨l', List.mem_cons_of_mem l hl', hp⟩

/-- If no line matches the pattern, the loop collects nothing. -/
theorem collectTxns_none {sY eY : Nat} {rules : List Rule}
    {ls : List (List Char)} (h : ∀ l ∈ ls, txnMatch (pyStrip l) = none) :
    collectTxns sY eY rules ls = .ok [] := by
  induction ls with
  | nil => rfl
  | cons l ls ih =>
    rw [collectTxns]
    have hl : processLine sY eY rules l = .ok none := by
      unfold processLine
      rw [h l (List.mem_cons_self l ls)]
    rw [hl]
    exact ih (fun l' hl' => h l' (List.mem_cons_of_mem l hl'))

/-- Every transaction in a successful `_convert_pdf` run comes from some line
processed with the document's resolved `(start_year, end_year)`. -/
theorem convertPdf_mem {pages : List String} {bn : String} {cy : Nat}
    {rules : List Rule} {ts : List Txn}
    (h : convertPdf pages bn cy rules = .ok ts) {t : Txn} (ht : t ∈ ts) :
    ∃ l, processLine (pdfYears (pages.filter (fun p => !(p == ""))) bn cy).1
      (pdfYears (pages.filter (fun p => !(p == ""))) bn cy).2 rules l =
        .ok (some t) := by
  simp only [convertPdf] at h
  split at h
  · simp at h
  · split at h
    · simp at h
    · simp at h
    · next ts' hts' =>
      simp only [Except.ok.injEq] at h
      subst h
      obtain ⟨l, _, hp⟩ := collectTxns_mem hts' ht
      exact ⟨l, hp⟩

/-! ## Claim C1 -/

/-- C1, counterexample: the claim requires the ENTIRE trimmed line to match
(nothing after the amount), but the code's regex is not end-anchored: the
line `01/02 COFFEE $3.50 XYZ` has trailing text after the amount — it fails
the spec's anchored pattern — yet `_convert_pdf` produces a transaction from
it. -/
theorem C1_counterexample :
    convertPdf ["01/02 COFFEE $3.50 XYZ"] "f.pdf" 2024 [] =
      .ok [⟨"", "01/02/2024", "January", 2, 2024, "COFFEE", 1, 350, "", "", ""⟩] ∧
    specAnchoredTxnPattern (pyStrip "01/02 COFFEE $3.50 XYZ".toList) = false := by
  exact ⟨by rfl, by decide⟩

/-- C1 (amended): a transaction is produced from a line only if the trimmed
line has a PREFIX of the form `MM/DD`, whitespace, an optional `MM/DD` plus
whitespace, a nonempty description, whitespace, and a `-?$digits/commas.dd`
amount ending at a word boundary — trailing text after the amount is
permitted.  Every line without such a prefix match is silently ignored (the
loop `continue`s), never an error. -/
theorem C1_prefix_pattern_only_if :
    (∀ startYear endYear rules line t,
      processLine startYear endYear rules line = .ok (some t) →
      ∃ m, txnMatch (pyStrip line) = some m ∧ matchDecomp (pyStrip line) m) ∧
    (∀ startYear endYear rules line,
      txnMatch (pyStrip line) = none →
      processLine startYear endYear rules line = .ok none) := by
  constructor
  · intro sY eY rules line t h
    cases hm : txnMatch (pyStrip line) with
    | none => simp [processLine, hm] at h
    | some m => exact ⟨m, rfl, txnMatch_sound hm⟩
  · intro sY eY rules line h
    simp [processLine, h]

/-- C1, witness: the amended theorem applied to the counterexample line. -/
theorem C1_witness :
    ∃ m, txnMatch (pyStrip "01/02 COFFEE $3.50 XYZ".toList) = some m ∧
      matchDecomp (pyStrip "01/02 COFFEE $3.50 XYZ".toList) m :=
  C1_prefix_pattern_only_if.1 2024 2024 [] "01/02 COFFEE $3.50 XYZ".toList
    ⟨"", "01/02/2024", "January", 2, 2024, "COFFEE", 1, 350, "", "", ""⟩
    (by rfl)

/-! ## Claim C9 -/

/-- C9: a line whose matched amount token starts with `-` is skipped — no
transaction is appended — and consequently every transaction in a successful
output has a nonnegative amount. -/
theorem C9_amount_sign_filter :
    (∀ startYear endYear rules line m,
      txnMatch (pyStrip line) = some m → m.amount.head? = some '-' →
      processLine startYear endYear rules line = .ok none) ∧
    (∀ pages basename currentYear rules ts,
      convertPdf pages basename currentYear rules = .ok ts →
      ∀ t ∈ ts, 0 ≤ t.amountCents) := by
  constructor
  · intro sY eY rules line m hm hneg
    simp [processLine, hm, hneg]
  · intro pages bn cy rules ts h t ht
    obtain ⟨l, hp⟩ := convertPdf_mem h ht
    exact processLine_amount hp

/-- C9, witness: spec scenario 3 — `01/15 REFUND -$10.00` produces no
transaction. -/
theorem C9_witness :
    processLine 2024 2024 [] "01/15 REFUND -$10.00".toList = .ok none :=
  C9_amount_sign_filter.1 2024 2024 [] "01/15 REFUND -$10.00".toList
    ⟨"01/15".toList, 1, 15, none, "REFUND".toList, "-$10.00".toList⟩
    (by decide) (by decide)

/-! ## Claim C3 -/

/-- C3: the billing years come from the first `MM/DD/YY-MM/DD/YY` billing
marker (`start_year = 2000+YY1`, `end_year = 2000+YY2`); each transaction's
year is `start_year` when `start_year ≠ end_year` and its month is ≥ 10,
else `end_year`; with `start_year=2023, end_year=2024` month 12 resolves to
2023 and month 3 to 2024. -/
theorem C3_year_resolution :
    (∀ texts basename currentYear y1 y2,
      firstBilling texts = some (y1, y2) →
      pdfYears texts basename currentYear = (2000 + y1, 2000 + y2)) ∧
    (∀ pages basename currentYear rules ts,
      convertPdf pages basename currentYear rules = .ok ts →
      ∀ t ∈ ts,
        t.year = resolveYear
          (pdfYears (pages.filter (fun p => !(p == ""))) basename currentYear).1
          (pdfYears (pages.filter (fun p => !(p == ""))) basename currentYear).2
          t.month) ∧
    resolveYear 2023 2024 12 = 2023 ∧ resolveYear 2023 2024 3 = 2024 := by
  refine ⟨?_, ?_, by decide, by decide⟩
  · intro texts bn cy y1 y2 h
    unfold pdfYears
    rw [h]
  · intro pages bn cy rules ts h t ht
    obtain ⟨l, hp⟩ := convertPdf_mem h ht
    exact processLine_year hp

/-- C3, witness: a concrete billing marker `12/05/23-01/04/24` yields
`(2023, 2024)`. -/
theorem C3_witness :
    pdfYears ["Billing Period: 12/05/23-01/04/24"] "x.pdf" 2030 =
      (2023, 2024) :=
  C3_year_resolution.1 ["Billing Period: 12/05/23-01/04/24"] "x.pdf" 2030
    23 24 (by decide)

/-! ## Claim C10 -/

/-- C10: with no billing marker on any page but a `20xx` year in the file
name, both years are set to the filename year, so the `month ≥ 10` branch can
never pick a different year — every transaction resolves to the filename
year. -/
theorem C10_filename_year_fallback :
    (∀ texts basename currentYear y,
      firstBilling texts = none → findYear20 basename.toList = some y →
      pdfYears texts basename currentYear = (y, y) ∧
        ∀ m, resolveYear y y m = y) ∧
    (∀ pages basename currentYear rules ts y,
      firstBilling (pages.filter (fun p => !(p == ""))) = none →
      findYear20 basename.toList = some y →
      convertPdf pages basename currentYear rules = .ok ts →
      ∀ t ∈ ts, t.year = y) := by
  have hyears : ∀ (texts : List String) (bn : String) (cy y : Nat),
      firstBilling texts = none → findYear20 bn.toList = some y →
      pdfYears texts bn cy = (y, y) := by
    intro texts bn cy y h1 h2
    unfold pdfYears
    rw [h1, h2]
  constructor
  · intro texts bn cy y h1 h2
    exact ⟨hyears texts bn cy y h1 h2, fun m => by simp [resolveYear]⟩
  · intro pages bn cy rules ts y h1 h2 h t ht
    obtain ⟨l, hp⟩ := convertPdf_mem h ht
    have := processLine_year hp
    rw [hyears _ bn cy y h1 h2] at this
    simpa [resolveYear] using this

/-- C10, witness: file name `Jan 2024.pdf`, no marker in the text. -/
theorem C10_witness :
    pdfYears ["no marker here"] "Jan 2024.pdf" 2030 = (2024, 2024) ∧
      resolveYear 2024 2024 12 = 2024 := by
  have h := C10_filename_year_fallback.1 ["no marker here"] "Jan 2024.pdf"
    2030 2024 (by decide) (by decide)
  exact ⟨h.1, h.2 12⟩

/-! ## Claim C4 -/

/-- C4: the claim says every failure raises `ConversionError`, but a line
whose first two digits form a month greater than 12 — accepted by the
regex's `\d{2}` — drives `MONTH_NAMES[month]` out of range and raises a raw
`IndexError` that `_convert_pdf` does not catch. -/
theorem C4_raw_index_error :
    convertPdf ["13/01 STORE $1.00"] "s.pdf" 2024 [] = .error .indexError := by
  rfl

/-! ## Claim C5 -/

/-- C5, counterexample: the spec's PDF table-fallback builder does not exist
in the code — on a page with the two lines `Name   Amount` and
`Bob    10.00` (no transaction-pattern match anywhere), `_convert_pdf` does
not emit a headerless 2×2 grid; it raises `ConversionError` "No transaction
rows found …". -/
theorem C5_counterexample :
    convertPdf ["Name   Amount\nBob    10.00"] "f.pdf" 2024 [] =
      .error (.conversionError noTxnMsg) := by
  rfl

/-- C5 (amended): `_convert_pdf` has no table-reconstruction fallback at
all: whenever a PDF has extractable text but no line matches the transaction
pattern, the conversion raises `ConversionError` "No transaction rows found
…" instead of emitting any grid. -/
theorem C5_no_table_fallback :
    ∀ pages basename currentYear rules,
      (pages.filter (fun p => !(p == ""))) ≠ [] →
      (∀ l ∈ ((pages.filter (fun p => !(p == ""))).map
          (fun t => splitLines t.toList)).flatten,
        txnMatch (pyStrip l) = none) →
      convertPdf pages basename currentYear rules =
        .error (.conversionError noTxnMsg) := by
  intro pages bn cy rules hne hnone
  simp only [convertPdf]
  rw [if_neg (by simpa [List.isEmpty_iff] using hne)]
  rw [collectTxns_none hnone]

/-- C5, witness: the amended theorem applied to the two-line page. -/
theorem C5_witness :
    convertPdf ["Name   Amount\nBob    10.00"] "g.pdf" 2025 [] =
      .error (.conversionError noTxnMsg) :=
  C5_no_table_fallback ["Name   Amount\nBob    10.00"] "g.pdf" 2025 []
    (by decide) (by decide)

/-! ## Claim C7 -/

/-- C7: `_apply_rules` returns the triple of the first rule, in list order,
with some keyword occurring case-insensitively in the description (so of two
matching rules the earlier wins), three empty strings when none matches, and
a rule with no keywords never matches. -/
theorem C7_rule_classifier :
    (∀ description rules,
      applyRules description rules = classifySpec description rules) ∧
    (∀ description r, r.keywords = [] → matchesRule description r = false) ∧
    (∀ description pre r post,
      (∀ r' ∈ pre, matchesRule description r' = false) →
      matchesRule description r = true →
      applyRules description (pre ++ r :: post) =
        (r.type, r.hl_exp_category, r.exp_category)) := by
  refine ⟨?_, ?_, ?_⟩
  · intro d rules
    induction rules with
    | nil => rfl
    | cons r rs ih =>
      by_cases hm : matchesRule d r = true
      · simp [applyRules, classifySpec, List.find?_cons_of_pos, hm]
      · rw [classifySpec, List.find?_cons_of_neg _ (by simpa using hm)]
        rw [applyRules, if_neg (by simpa using hm), ih]
        rfl
  · intro d r h
    rw [matchesRule, h]
    rfl
  · intro d pre r post hpre hr
    induction pre with
    | nil => simp [applyRules, hr]
    | cons p pre ih =>
      rw [List.cons_append, applyRules,
        if_neg (by simp [hpre p (List.mem_cons_self p pre)])]
      exact ih (fun r' h' => hpre r' (List.mem_cons_of_mem p h'))

/-- C7, witness: spec scenario 4, with a second matching rule that loses to
the first. -/
theorem C7_witness :
    applyRules "STARBUCKS #1234"
      ([] ++ (⟨["STARBUCKS"], "Dining", "Food", "Coffee"⟩ : Rule) ::
        [⟨["#1234"], "Other", "Misc", "Misc"⟩]) =
      ("Dining", "Food", "Coffee") :=
  C7_rule_classifier.2.2 "STARBUCKS #1234" []
    ⟨["STARBUCKS"], "Dining", "Food", "Coffee"⟩
    [⟨["#1234"], "Other", "Misc", "Misc"⟩]
    (by intro r' h'; simp at h') (by decide)

/-! ## Claim C8 -/

theorem isdigitPy_stripPunct_empty : isdigitPy (stripPunct "") = false := rfl

theorem isHeaderRow_iff {row : List String} :
    isHeaderRow row = true ↔
      ∀ cell ∈ row, cell ≠ "" → isdigitPy (stripPunct cell) = false := by
  rw [isHeaderRow, List.all_eq_true]
  constructor
  · intro h cell hc hne
    have := h cell hc
    rw [if_neg (by simpa using hne)] at this
    simpa using this
  · intro h cell hc
    by_cases hne : cell = ""
    · rw [if_pos (by simpa using hne)]
    · rw [if_neg (by simpa using hne)]
      simpa using h cell hc hne

/-- C8: the first reconstructed row becomes the table headers (and is
dropped from the data rows) iff every non-empty cell, stripped of `.`, `,`,
`/`, is not a pure digit string; an all-numeric first row never yields
headers, an all-non-numeric first row always does. -/
theorem C8_header_detection :
    ∀ first rest,
      ((buildTable (first :: rest)).headers = some first ↔
        ∀ cell ∈ first, cell ≠ "" → isdigitPy (stripPunct cell) = false) ∧
      ((buildTable (first :: rest)).headers = some first →
        (buildTable (first :: rest)).rows = rest) ∧
      (first ≠ [] → (∀ cell ∈ first, isdigitPy (stripPunct cell) = true) →
        (buildTable (first :: rest)).headers = none) ∧
      ((∀ cell ∈ first, isdigitPy (stripPunct cell) = false) →
        (buildTable (first :: rest)).headers = some first) := by
  intro first rest
  refine ⟨?_, ?_, ?_, ?_⟩
  · rw [← isHeaderRow_iff, buildTable]
    split
    · next h => simp [h]
    · next h => simp [h]
  · rw [buildTable]
    split
    · intro; rfl
    · intro h; simp at h
  · intro hne hall
    cases first with
    | nil => exact absurd rfl hne
    | cons c cells =>
      have hc := hall c (List.mem_cons_self c cells)
      have hcne : c ≠ "" := by
        intro hrfl
        rw [hrfl, isdigitPy_stripPunct_empty] at hc
        exact Bool.false_ne_true hc
      rw [buildTable, if_neg]
      intro hhdr
      have := isHeaderRow_iff.mp hhdr c (List.mem_cons_self c cells) hcne
      rw [hc] at this
      exact Bool.true_eq_false ▸ this
  · intro hall
    rw [buildTable, if_pos (isHeaderRow_iff.mpr (fun cell hc _ => hall cell hc))]

/-- C8, witness: spec scenario 1's rows — `["Date","Amount"]` is promoted to
a header above `[["01/15","4.75"]]`. -/
theorem C8_witness :
    (buildTable [["Date", "Amount"], ["01/15", "4.75"]]).headers =
      some ["Date", "Amount"] ∧
    (buildTable [["01/15", "4.75"]]).headers = none := by
  constructor
  · exact (C8_header_detection ["Date", "Amount"] [["01/15", "4.75"]]).2.2.2
      (by decide)
  · exact (C8_header_detection ["01/15", "4.75"] []).2.2.1 (by decide)
      (by decide)

/-! ## Claim C2 -/

theorem addToRows_eq_specPlace (w : Word) (rows : List RowCluster) :
    addToRows w rows = specPlace w rows := by
  induction rows with
  | nil => rfl
  | cons r rs ih =>
    by_cases h : absDiff w.top r.anchor ≤ 15
    · rw [addToRows, if_pos h, specPlace, firstMatchIdx,
        if_pos (by simpa using h)]
      rfl
    · rw [addToRows, if_neg h, ih, specPlace, specPlace, firstMatchIdx,
        if_neg (by simpa using h)]
      cases hidx : firstMatchIdx
          (fun r => decide (absDiff w.top r.anchor ≤ 15)) rs with
      | none => simp [hidx]
      | some i => simp [hidx, replaceAt]

theorem foldl_addToRows (ws : List Word) (acc : List RowCluster) :
    ws.foldl (fun acc w => addToRows w acc) acc = specPlaceAll ws acc := by
  induction ws generalizing acc with
  | nil => rfl
  | cons w ws ih =>
    rw [List.foldl_cons, specPlaceAll, addToRows_eq_specPlace, ih]

/-- C2: the row-assembly phase of `_convert_image` behaves exactly as the
spec describes it — sort words by `(top, left)`; greedily place each word in
the first row (in creation order) whose anchor is within 15 of the word's
top, recomputing that row's anchor as the truncated mean of its members'
tops, else open a new row; finally order rows by anchor and words by
`left`. -/
theorem C2_row_assembler : ∀ ws, assembleRows ws = specRowAssemble ws := by
  intro ws
  simp only [assembleRows, specRowAssemble]
  rw [foldl_addToRows]

/-! ## Claim C6 -/

theorem firstMatchIdx_map_natRange {β : Type} (p : β → Bool) (f : Nat → β) :
    ∀ (n s j : Nat), j < n → p (f (s + j)) = true →
      (∀ k, k < j → p (f (s + k)) = false) →
      firstMatchIdx p ((natRange s n).map f) = some j := by
  intro n
  induction n with
  | zero => intro s j h; omega
  | succ n ih =>
    intro s j hj hpj hk
    rw [natRange, List.map_cons, firstMatchIdx]
    cases j with
    | zero =>
      rw [if_pos (by simpa using hpj)]
    | succ j =>
      rw [if_neg (by simpa using hk 0 (Nat.succ_pos j))]
      have harg : s + 1 + j = s + (j + 1) := by omega
      rw [ih (s + 1) j (by omega) (by rw [harg]; exact hpj)
        (fun k hkj => by
          have : s + 1 + k = s + (k + 1) := by omega
          rw [this]
          exact hk (k + 1) (by omega))]
      rfl

/-- C6: the derived column bounds are contiguous — each column's right bound
equals the next column's left bound — and for every `x` with
`0 ≤ x < 999999` some interval `[cl, cr)` contains `x`, so `_get_col_index`
returns that first matching index in `[0, N)` and its no-interval fallback
branch is unreachable. -/
theorem C6_column_bounds :
    ∀ hw : List Word, 2 ≤ hw.length →
      (∀ ci, ci + 1 < hw.length →
        (boundAt hw ci).2 = (boundAt hw (ci + 1)).1) ∧
      (∀ x, x < 999999 → ∃ i, i < hw.length ∧
        firstMatchIdx (fun b => b.1 ≤ x && x < b.2) (colBounds hw) = some i ∧
        getColIndex (colBounds hw) hw.length x = i) := by
  intro hw hlen
  have hcontig : ∀ ci, ci + 1 < hw.length →
      (boundAt hw ci).2 = (boundAt hw (ci + 1)).1 := by
    intro ci hci
    simp only [boundAt]
    rw [if_neg (by simp only [beq_iff_eq]; omega),
      if_neg (by simp only [beq_iff_eq]; omega)]
    simp
  refine ⟨hcontig, ?_⟩
  intro x hx
  have hb0 : (boundAt hw 0).1 = 0 := by simp [boundAt]
  have hlast : (boundAt hw (hw.length - 1)).2 = 999999 := by simp [boundAt]
  have hQex : ∃ j, j < hw.length ∧ x < (boundAt hw j).2 :=
    ⟨hw.length - 1, by omega, by rw [hlast]; exact hx⟩
  classical
  set j0 := Nat.find hQex with hj0def
  obtain ⟨hj0lt, hj0x⟩ := Nat.find_spec hQex
  have hmin : ∀ k, k < j0 → ¬(k < hw.length ∧ x < (boundAt hw k).2) :=
    fun k hk => Nat.find_min hQex hk
  have hleft : (boundAt hw j0).1 ≤ x := by
    cases hj0 : j0 with
    | zero => rw [hb0]; exact Nat.zero_le x
    | succ k =>
      have hkN : k < hw.length := by omega
      have hkx : ¬x < (boundAt hw k).2 := by
        have := hmin k (by omega)
        tauto
      have := hcontig k (by omega)
      rw [← this]
      omega
  have hfalse : ∀ k, k < j0 → (fun b => b.1 ≤ x && x < b.2)
      (boundAt hw (0 + k)) = false := by
    intro k hk
    have hkN : k < hw.length := by omega
    have hkx : ¬x < (boundAt hw k).2 := by
      have := hmin k hk
      tauto
    simp only [Nat.zero_add]
    simp [hkx]
  have hfmi : firstMatchIdx (fun b => b.1 ≤ x && x < b.2) (colBounds hw) =
      some j0 := by
    rw [colBounds]
    exact firstMatchIdx_map_natRange _ (boundAt hw) hw.length 0 j0 hj0lt
      (by simp only [Nat.zero_add]; simp [hleft, hj0x]) hfalse
  exact ⟨j0, hj0lt, hfmi, by rw [getColIndex, hfmi]⟩

/-- C6, witness: spec scenario 1's header words `Date` and `Amount`:
`x = 125` lands in exactly one of the two derived intervals. -/
theorem C6_witness :
    ∃ i, i < ([⟨"Date", 10, 0, 40, 50⟩, ⟨"Amount", 200, 0, 50, 250⟩] :
        List Word).length ∧
      firstMatchIdx (fun b => b.1 ≤ 125 && 125 < b.2)
        (colBounds [⟨"Date", 10, 0, 40, 50⟩, ⟨"Amount", 200, 0, 50, 250⟩]) =
        some i ∧
      getColIndex
        (colBounds [⟨"Date", 10, 0, 40, 50⟩, ⟨"Amount", 200, 0, 50, 250⟩])
        ([⟨"Date", 10, 0, 40, 50⟩, ⟨"Amount", 200, 0, 50, 250⟩] :
          List Word).length 125 = i :=
  (C6_column_bounds [⟨"Date", 10, 0, 40, 50⟩, ⟨"Amount", 200, 0, 50, 250⟩]
    (by decide)).2 125 (by decide)

end Converters
